import Mathlib

/-!
Verification of the `ec2_find_asg` Ansible module core
(`src/ec2_find_asg/ec2_find_asg.py`): the tag-matching function `match`
and the property extractor `get_properties`.

Python dicts are modelled as association lists with unique keys, built by
`dictInsert` (insert-or-overwrite, as a dict assignment); `dictGet` is dict
lookup; `dictEq` is Python's extensional dict equality.  Instance health
status and lifecycle state are strings compared verbatim, as in the source.
-/

set_option autoImplicit false

namespace Ec2FindAsg

universe u

variable {α : Type u}

/-- `d[k] = v` on a dict modelled as an association list: overwrite the
entry for `k` if present, otherwise append `(k, v)`. -/
def dictInsert (k : String) (v : α) : List (String × α) → List (String × α)
  | [] => [(k, v)]
  | p :: rest => if p.1 = k then (k, v) :: rest else p :: dictInsert k v rest

/-- Dict lookup `d.get(k)`. -/
def dictGet (k : String) : List (String × α) → Option α
  | [] => none
  | p :: rest => if p.1 = k then some p.2 else dictGet k rest

/-- The keys of a dict, in entry order. -/
def dictKeys (d : List (String × α)) : List String := d.map Prod.fst

/-- Python dict equality `d1 == d2`: the two mappings agree on every key. -/
def dictEq (d1 d2 : List (String × String)) : Bool :=
  (d1.all fun p => dictGet p.1 d2 == some p.2) &&
    (d2.all fun p => dictGet p.1 d1 == some p.2)

/-- A tag attached to an Auto Scaling Group (boto `Tag` with `key`/`value`). -/
structure Tag where
  key : String
  value : String
deriving DecidableEq

/-- An instance snapshot nested in a group (the attributes the module reads). -/
structure Instance where
  instance_id : String
  health_status : String
  lifecycle_state : String
  launch_config_name : String
deriving DecidableEq

/-- An Auto Scaling Group snapshot: the attributes in `ASG_ATTRIBUTES`,
plus `instances` and `tags`, which the module also reads. -/
structure AutoScalingGroup where
  availability_zones : List String
  default_cooldown : Int
  desired_capacity : Int
  health_check_period : Int
  health_check_type : String
  launch_config_name : String
  load_balancers : List String
  max_size : Int
  min_size : Int
  name : String
  placement_group : String
  termination_policies : List String
  vpc_zone_identifier : String
  instances : List Instance
  tags : List Tag
deriving DecidableEq

/-- The per-instance record stored in `instance_facts`. -/
structure InstanceFacts where
  health_status : String
  lifecycle_state : String
  launch_config_name : String
deriving DecidableEq

/-- The `properties` dict built by `get_properties`, as a record: the copied
group attributes, the six counters, and the three optional fields, where
`none` models absence of the dict key. -/
structure Properties where
  availability_zones : List String
  default_cooldown : Int
  desired_capacity : Int
  health_check_period : Int
  health_check_type : String
  launch_config_name : String
  load_balancers : List String
  max_size : Int
  min_size : Int
  name : String
  placement_group : String
  termination_policies : List String
  vpc_zone_identifier : String
  healthy_instances : Nat
  in_service_instances : Nat
  unhealthy_instances : Nat
  pending_instances : Nat
  viable_instances : Nat
  terminating_instances : Nat
  instances : Option (List String)
  instance_facts : Option (List (String × InstanceFacts))
  tags : Option (List (String × String))
deriving DecidableEq

/-- `dict((t.key, t.value) for t in tags)`. -/
def tagsDict (tags : List Tag) : List (String × String) :=
  tags.foldl (fun d t => dictInsert t.key t.value d) []

/-- The `instance_facts` value for one instance. -/
def mkFacts (i : Instance) : InstanceFacts :=
  { health_status := i.health_status
    lifecycle_state := i.lifecycle_state
    launch_config_name := i.launch_config_name }

/-- One iteration of the instance loop in `get_properties`, counter part:
the five conditional increments, in source order. -/
def stepCounters (i : Instance) (p : Properties) : Properties :=
  bumpPending i (bumpTerminating i (bumpInService i (bumpHealth i (bumpViable i p))))
where
  /-- `viable_instances += 1` iff Healthy and InService. -/
  bumpViable (i : Instance) (p : Properties) : Properties :=
    if i.health_status = "Healthy" ∧ i.lifecycle_state = "InService" then
      { p with viable_instances := p.viable_instances + 1 }
    else p
  /-- `healthy_instances += 1` if Healthy, else `unhealthy_instances += 1`. -/
  bumpHealth (i : Instance) (p : Properties) : Properties :=
    if i.health_status = "Healthy" then
      { p with healthy_instances := p.healthy_instances + 1 }
    else { p with unhealthy_instances := p.unhealthy_instances + 1 }
  /-- `in_service_instances += 1` if InService. -/
  bumpInService (i : Instance) (p : Properties) : Properties :=
    if i.lifecycle_state = "InService" then
      { p with in_service_instances := p.in_service_instances + 1 }
    else p
  /-- `terminating_instances += 1` if Terminating. -/
  bumpTerminating (i : Instance) (p : Properties) : Properties :=
    if i.lifecycle_state = "Terminating" then
      { p with terminating_instances := p.terminating_instances + 1 }
    else p
  /-- `pending_instances += 1` if Pending. -/
  bumpPending (i : Instance) (p : Properties) : Properties :=
    if i.lifecycle_state = "Pending" then
      { p with pending_instances := p.pending_instances + 1 }
    else p

/-- The instance loop of `get_properties`: threads the `instance_facts`
dict and the `properties` record through the instance sequence. -/
def procInstances :
    List Instance → List (String × InstanceFacts) → Properties →
      List (String × InstanceFacts) × Properties
  | [], facts, p => (facts, p)
  | i :: rest, facts, p =>
      procInstances rest (dictInsert i.instance_id (mkFacts i) facts)
        (stepCounters i p)

/-- The `properties` dict right after the `ASG_ATTRIBUTES` copy and the six
counter initialisations, before the instance block. -/
def initProps (g : AutoScalingGroup) : Properties :=
  { availability_zones := g.availability_zones
    default_cooldown := g.default_cooldown
    desired_capacity := g.desired_capacity
    health_check_period := g.health_check_period
    health_check_type := g.health_check_type
    launch_config_name := g.launch_config_name
    load_balancers := g.load_balancers
    max_size := g.max_size
    min_size := g.min_size
    name := g.name
    placement_group := g.placement_group
    termination_policies := g.termination_policies
    vpc_zone_identifier := g.vpc_zone_identifier
    healthy_instances := 0
    in_service_instances := 0
    unhealthy_instances := 0
    pending_instances := 0
    viable_instances := 0
    terminating_instances := 0
    instances := none
    instance_facts := none
    tags := none }

/-- The `properties` dict after the `if autoscaling_group.instances:` block
(a Python truthiness test: the block runs iff the list is non-empty). -/
def propsAfterInstances (g : AutoScalingGroup) : Properties :=
  if g.instances.isEmpty then initProps g
  else
    let r := procInstances g.instances []
      { initProps g with instances := some (g.instances.map Instance.instance_id) }
    { r.2 with instance_facts := some r.1 }

/-- `get_properties`: attribute copy, counters, instance block, the
`load_balancers` re-assignment, and the guarded `tags` dict. -/
def get_properties (autoscaling_group : AutoScalingGroup) : Properties :=
  let properties :=
    { propsAfterInstances autoscaling_group with
        load_balancers := autoscaling_group.load_balancers }
  if autoscaling_group.tags.isEmpty then properties
  else { properties with tags := some (tagsDict autoscaling_group.tags) }

/-- The per-group test in `match`: the pair-set intersection of the group's
tag dict with `search_tags`, compared (as a dict) against `search_tags`. -/
def groupMatches (search_tags : List (String × String))
    (as_group : AutoScalingGroup) : Bool :=
  let as_group_tags := tagsDict as_group.tags
  let tags_intersection := as_group_tags.filter fun p => decide (p ∈ search_tags)
  dictEq tags_intersection search_tags

/-- The result dict of `match`: its single key `as_groups`. -/
structure MatchResult where
  as_groups : List Properties
deriving DecidableEq

/-- The group loop of `match`: appends `get_properties` of each matching
group, in input order. -/
def matchLoop (search_tags : List (String × String)) :
    List AutoScalingGroup → List Properties
  | [] => []
  | g :: rest =>
      if groupMatches search_tags g then
        get_properties g :: matchLoop search_tags rest
      else matchLoop search_tags rest

/-- `match(as_groups, search_tags)`. -/
def «match» (as_groups : List AutoScalingGroup)
    (search_tags : List (String × String)) : MatchResult :=
  { as_groups := matchLoop search_tags as_groups }

/-- The last instance in the sequence carrying the given instance id. -/
def lastWithId (id : String) : List Instance → Option Instance
  | [] => none
  | i :: rest =>
      match lastWithId id rest with
      | some j => some j
      | none => if i.instance_id = id then some i else none

/-- A concrete group with no instances and no tags, used to instantiate
conditional theorems. -/
def gEmpty : AutoScalingGroup :=
  { availability_zones := ["us-west-1a"]
    default_cooldown := 300
    desired_capacity := 0
    health_check_period := 30
    health_check_type := "EC2"
    launch_config_name := "lc"
    load_balancers := ["elb-1"]
    max_size := 2
    min_size := 0
    name := "asg-empty"
    placement_group := ""
    termination_policies := ["Default"]
    vpc_zone_identifier := ""
    instances := []
    tags := [] }

/-- A concrete group whose two instances share one instance id, used to
instantiate conditional theorems. -/
def gDup : AutoScalingGroup :=
  { gEmpty with
    name := "asg-dup"
    instances :=
      [ { instance_id := "i-1"
          health_status := "Healthy"
          lifecycle_state := "InService"
          launch_config_name := "lc" },
        { instance_id := "i-1"
          health_status := "Unhealthy"
          lifecycle_state := "Pending"
          launch_config_name := "lc" } ] }


/-! ### Dictionary lemmas -/

theorem dictInsert_nil (k : String) (v : α) : dictInsert k v [] = [(k, v)] := rfl

theorem dictInsert_cons (k : String) (v : α) (p : String × α) (d : List (String × α)) :
    dictInsert k v (p :: d) =
      if p.1 = k then (k, v) :: d else p :: dictInsert k v d := rfl

theorem dictGet_nil (k : String) : dictGet k ([] : List (String × α)) = none := rfl

theorem dictGet_cons (k : String) (p : String × α) (d : List (String × α)) :
    dictGet k (p :: d) = if p.1 = k then some p.2 else dictGet k d := rfl

theorem dictKeys_nil : dictKeys ([] : List (String × α)) = [] := rfl

theorem dictKeys_cons (p : String × α) (d : List (String × α)) :
    dictKeys (p :: d) = p.1 :: dictKeys d := rfl

theorem mem_dictKeys {d : List (String × α)} {a : String} :
    a ∈ dictKeys d ↔ ∃ p ∈ d, p.1 = a := by
  simp [dictKeys]

theorem dictGet_dictInsert (k k' : String) (v : α) (d : List (String × α)) :
    dictGet k' (dictInsert k v d) = if k = k' then some v else dictGet k' d := by
  induction d with
  | nil =>
      rw [dictInsert_nil]
      simp [dictGet_cons, dictGet_nil]
  | cons p rest ih =>
      rw [dictInsert_cons]
      by_cases hpk : p.1 = k
      · by_cases hk : k = k'
        · simp [hpk, hk, dictGet_cons]
        · have hpk' : ¬ p.1 = k' := fun hc => hk (hpk ▸ hc)
          simp [hpk, hk, hpk', dictGet_cons]
      · by_cases hk : k = k'
        · have hpk' : ¬ p.1 = k' := fun hc => hpk (hc.trans hk.symm)
          subst hk
          simp [hpk, dictGet_cons, ih]
        · simp [hpk, hk, dictGet_cons, ih]

theorem mem_of_dictGet_eq_some {k : String} {v : α} {d : List (String × α)}
    (h : dictGet k d = some v) : (k, v) ∈ d := by
  induction d with
  | nil => simp [dictGet_nil] at h
  | cons p rest ih =>
      rw [dictGet_cons] at h
      by_cases hpk : p.1 = k
      · rw [if_pos hpk] at h
        have h2 : p.2 = v := Option.some.inj h
        exact List.mem_cons.mpr (Or.inl (Prod.ext_iff.mpr ⟨hpk.symm, h2.symm⟩))
      · rw [if_neg hpk] at h
        exact List.mem_cons_of_mem _ (ih h)

theorem dictGet_eq_some_of_mem {d : List (String × α)}
    (hnd : (dictKeys d).Nodup) {p : String × α} (hp : p ∈ d) :
    dictGet p.1 d = some p.2 := by
  induction d with
  | nil => simp at hp
  | cons q rest ih =>
      rw [dictKeys_cons, List.nodup_cons] at hnd
      rw [dictGet_cons]
      rcases List.mem_cons.mp hp with h | h
      · rw [if_pos (by rw [h])]
        rw [h]
      · have hne : ¬ q.1 = p.1 :=
          fun he => hnd.1 (he ▸ mem_dictKeys.mpr ⟨p, h, rfl⟩)
        rw [if_neg hne]
        exact ih hnd.2 h

theorem dictKeys_dictInsert_of_mem {k : String} (v : α) {d : List (String × α)}
    (h : k ∈ dictKeys d) : dictKeys (dictInsert k v d) = dictKeys d := by
  induction d with
  | nil => simp [dictKeys_nil] at h
  | cons q rest ih =>
      rw [dictInsert_cons]
      by_cases hqk : q.1 = k
      · rw [if_pos hqk, dictKeys_cons, dictKeys_cons, hqk]
      · rw [if_neg hqk, dictKeys_cons, dictKeys_cons]
        have h' : k ∈ dictKeys rest := by
          rw [dictKeys_cons, List.mem_cons] at h
          rcases h with h1 | h1
          · exact absurd h1.symm hqk
          · exact h1
        rw [ih h']

theorem dictKeys_dictInsert_of_not_mem {k : String} (v : α) {d : List (String × α)}
    (h : k ∉ dictKeys d) : dictKeys (dictInsert k v d) = dictKeys d ++ [k] := by
  induction d with
  | nil => rfl
  | cons q rest ih =>
      have hqk : ¬ q.1 = k := fun he =>
        h (by rw [dictKeys_cons]; exact List.mem_cons.mpr (Or.inl he.symm))
      have h' : k ∉ dictKeys rest := fun hm =>
        h (by rw [dictKeys_cons]; exact List.mem_cons.mpr (Or.inr hm))
      rw [dictInsert_cons, if_neg hqk, dictKeys_cons, ih h', dictKeys_cons,
        List.cons_append]

theorem mem_dictKeys_dictInsert {a k : String} (v : α) (d : List (String × α)) :
    a ∈ dictKeys (dictInsert k v d) ↔ a = k ∨ a ∈ dictKeys d := by
  by_cases h : k ∈ dictKeys d
  · rw [dictKeys_dictInsert_of_mem v h]
    constructor
    · exact Or.inr
    · rintro (rfl | hm)
      · exact h
      · exact hm
  · rw [dictKeys_dictInsert_of_not_mem v h]
    simp [or_comm]

theorem nodup_dictKeys_dictInsert {k : String} (v : α) {d : List (String × α)}
    (h : (dictKeys d).Nodup) : (dictKeys (dictInsert k v d)).Nodup := by
  by_cases hm : k ∈ dictKeys d
  · rwa [dictKeys_dictInsert_of_mem v hm]
  · rw [dictKeys_dictInsert_of_not_mem v hm]
    exact h.append (List.nodup_singleton k)
      fun a ha hak => hm ((List.mem_singleton.mp hak) ▸ ha)

theorem length_dictInsert (k : String) (v : α) (d : List (String × α)) :
    (dictInsert k v d).length =
      if k ∈ dictKeys d then d.length else d.length + 1 := by
  have hlen : ∀ e : List (String × α), (dictKeys e).length = e.length := by
    intro e
    simp [dictKeys]
  by_cases hm : k ∈ dictKeys d
  · rw [if_pos hm, ← hlen, dictKeys_dictInsert_of_mem v hm, hlen]
  · rw [if_neg hm, ← hlen, dictKeys_dictInsert_of_not_mem v hm]
    simp [hlen]

theorem nodup_dictKeys_tagsDict (ts : List Tag) :
    (dictKeys (tagsDict ts)).Nodup := by
  suffices h : ∀ d : List (String × String), (dictKeys d).Nodup →
      (dictKeys (ts.foldl (fun d t => dictInsert t.key t.value d) d)).Nodup by
    exact h [] (by rw [dictKeys_nil]; exact List.nodup_nil)
  induction ts with
  | nil => intro d hd; exact hd
  | cons t rest ih =>
      intro d hd
      exact ih _ (nodup_dictKeys_dictInsert _ hd)

theorem tagsDict_ne_nil {ts : List Tag} (h : ts ≠ []) : tagsDict ts ≠ [] := by
  have hins : ∀ (k : String) (v : String) (d : List (String × String)),
      dictInsert k v d ≠ [] := by
    intro k v d
    cases d with
    | nil => simp [dictInsert_nil]
    | cons p rest =>
        rw [dictInsert_cons]
        by_cases hpk : p.1 = k <;> simp [hpk]
  have hfold : ∀ (us : List Tag) (d : List (String × String)), d ≠ [] →
      us.foldl (fun d t => dictInsert t.key t.value d) d ≠ [] := by
    intro us
    induction us with
    | nil => intro d hd; exact hd
    | cons u rest ih => intro d _; exact ih _ (hins _ _ _)
  cases ts with
  | nil => exact absurd rfl h
  | cons t rest =>
      show rest.foldl _ (dictInsert t.key t.value []) ≠ []
      exact hfold rest _ (hins _ _ _)

/-! ### Instance-loop lemmas -/

theorem procInstances_nil (facts : List (String × InstanceFacts)) (p : Properties) :
    procInstances [] facts p = (facts, p) := rfl

theorem procInstances_cons (i : Instance) (rest : List Instance)
    (facts : List (String × InstanceFacts)) (p : Properties) :
    procInstances (i :: rest) facts p =
      procInstances rest (dictInsert i.instance_id (mkFacts i) facts)
        (stepCounters i p) := rfl

theorem stepCounters_spec (i : Instance) (p : Properties) :
    (stepCounters i p).healthy_instances =
        (p.healthy_instances + if i.health_status = "Healthy" then 1 else 0)
    ∧ (stepCounters i p).unhealthy_instances =
        (p.unhealthy_instances + if i.health_status = "Healthy" then 0 else 1)
    ∧ (stepCounters i p).in_service_instances =
        (p.in_service_instances + if i.lifecycle_state = "InService" then 1 else 0)
    ∧ (stepCounters i p).pending_instances =
        (p.pending_instances + if i.lifecycle_state = "Pending" then 1 else 0)
    ∧ (stepCounters i p).terminating_instances =
        (p.terminating_instances +
          if i.lifecycle_state = "Terminating" then 1 else 0)
    ∧ (stepCounters i p).viable_instances =
        (p.viable_instances +
          if i.health_status = "Healthy" ∧ i.lifecycle_state = "InService"
          then 1 else 0)
    ∧ (stepCounters i p).load_balancers = p.load_balancers
    ∧ (stepCounters i p).instances = p.instances
    ∧ (stepCounters i p).tags = p.tags := by
  simp only [stepCounters, stepCounters.bumpPending, stepCounters.bumpTerminating,
    stepCounters.bumpInService, stepCounters.bumpHealth, stepCounters.bumpViable]
  split_ifs <;> simp

theorem procInstances_health_sum (l : List Instance) :
    ∀ (facts : List (String × InstanceFacts)) (p : Properties),
      (procInstances l facts p).2.healthy_instances +
          (procInstances l facts p).2.unhealthy_instances =
        p.healthy_instances + p.unhealthy_instances + l.length := by
  induction l with
  | nil => intro facts p; simp [procInstances_nil]
  | cons i rest ih =>
      intro facts p
      rw [procInstances_cons, ih]
      have hs := stepCounters_spec i p
      rw [hs.1, hs.2.1]
      by_cases hh : i.health_status = "Healthy" <;>
        simp [hh, List.length_cons] <;> omega

theorem procInstances_viable (l : List Instance) :
    ∀ (facts : List (String × InstanceFacts)) (p : Properties),
      (procInstances l facts p).2.viable_instances =
        p.viable_instances +
          l.countP fun i =>
            decide (i.health_status = "Healthy" ∧ i.lifecycle_state = "InService") := by
  induction l with
  | nil => intro facts p; simp [procInstances_nil]
  | cons i rest ih =>
      intro facts p
      rw [procInstances_cons, ih, (stepCounters_spec i p).2.2.2.2.2.1,
        List.countP_cons]
      by_cases hvi : i.health_status = "Healthy" ∧ i.lifecycle_state = "InService" <;>
        simp [hvi] <;> omega

theorem procInstances_lifecycle_le (l : List Instance) :
    ∀ (facts : List (String × InstanceFacts)) (p : Properties),
      (procInstances l facts p).2.in_service_instances +
          (procInstances l facts p).2.pending_instances +
          (procInstances l facts p).2.terminating_instances ≤
        p.in_service_instances + p.pending_instances + p.terminating_instances +
          l.length := by
  induction l with
  | nil => intro facts p; simp [procInstances_nil]
  | cons i rest ih =>
      intro facts p
      rw [procInstances_cons]
      refine le_trans (ih _ _) ?_
      have hs := stepCounters_spec i p
      rw [hs.2.2.1, hs.2.2.2.1, hs.2.2.2.2.1]
      have hone : (if i.lifecycle_state = "InService" then 1 else 0) +
          (if i.lifecycle_state = "Pending" then 1 else 0) +
          (if i.lifecycle_state = "Terminating" then 1 else 0) ≤ 1 := by
        by_cases h1 : i.lifecycle_state = "InService" <;>
          by_cases h2 : i.lifecycle_state = "Pending" <;>
            by_cases h3 : i.lifecycle_state = "Terminating" <;>
              simp_all
      simp only [List.length_cons]
      omega

theorem procInstances_fields (l : List Instance) :
    ∀ (facts : List (String × InstanceFacts)) (p : Properties),
      (procInstances l facts p).2.load_balancers = p.load_balancers
      ∧ (procInstances l facts p).2.instances = p.instances
      ∧ (procInstances l facts p).2.tags = p.tags := by
  induction l with
  | nil => intro facts p; exact ⟨rfl, rfl, rfl⟩
  | cons i rest ih =>
      intro facts p
      rw [procInstances_cons]
      have hs := stepCounters_spec i p
      obtain ⟨h1, h2, h3⟩ :=
        ih (dictInsert i.instance_id (mkFacts i) facts) (stepCounters i p)
      exact ⟨h1.trans hs.2.2.2.2.2.2.1, h2.trans hs.2.2.2.2.2.2.2.1,
        h3.trans hs.2.2.2.2.2.2.2.2⟩

theorem dictGet_procInstances_facts (l : List Instance) (id : String) :
    ∀ (facts : List (String × InstanceFacts)) (p : Properties),
      dictGet id (procInstances l facts p).1 =
        match lastWithId id l with
        | some j => some (mkFacts j)
        | none => dictGet id facts := by
  induction l with
  | nil => intro facts p; rfl
  | cons i rest ih =>
      intro facts p
      rw [procInstances_cons, ih]
      cases hl : lastWithId id rest with
      | some j => simp [lastWithId, hl]
      | none =>
          rw [dictGet_dictInsert]
          by_cases hid : i.instance_id = id <;> simp [lastWithId, hl, hid]

theorem nodup_dictKeys_procInstances (l : List Instance) :
    ∀ (facts : List (String × InstanceFacts)) (p : Properties),
      (dictKeys facts).Nodup → (dictKeys (procInstances l facts p).1).Nodup := by
  induction l with
  | nil => intro facts p h; exact h
  | cons i rest ih =>
      intro facts p h
      exact ih _ (stepCounters i p) (nodup_dictKeys_dictInsert _ h)

theorem length_procInstances_facts_le (l : List Instance) :
    ∀ (facts : List (String × InstanceFacts)) (p : Properties),
      (procInstances l facts p).1.length ≤ facts.length + l.length := by
  induction l with
  | nil => intro facts p; simp [procInstances_nil]
  | cons i rest ih =>
      intro facts p
      rw [procInstances_cons]
      refine le_trans (ih _ _) ?_
      rw [length_dictInsert]
      by_cases hm : i.instance_id ∈ dictKeys facts <;>
        simp [hm, List.length_cons] <;> omega

theorem length_procInstances_facts_lt (l : List Instance) :
    ∀ (facts : List (String × InstanceFacts)) (p : Properties),
      (¬ (l.map Instance.instance_id).Nodup ∨
        ∃ i ∈ l, i.instance_id ∈ dictKeys facts) →
      (procInstances l facts p).1.length < facts.length + l.length := by
  induction l with
  | nil =>
      intro facts p h
      rcases h with h | ⟨i, hi, _⟩
      · exact absurd (by simp : (List.map Instance.instance_id []).Nodup) h
      · simp at hi
  | cons i rest ih =>
      intro facts p h
      rw [procInstances_cons]
      by_cases hm : i.instance_id ∈ dictKeys facts
      · have hle := length_procInstances_facts_le rest
          (dictInsert i.instance_id (mkFacts i) facts) (stepCounters i p)
        rw [length_dictInsert, if_pos hm] at hle
        refine lt_of_le_of_lt hle ?_
        simp only [List.length_cons]
        omega
      · have hkeys := dictKeys_dictInsert_of_not_mem (mkFacts i) hm
        have h' : ¬ (rest.map Instance.instance_id).Nodup ∨
            ∃ j ∈ rest, j.instance_id ∈
              dictKeys (dictInsert i.instance_id (mkFacts i) facts) := by
          rcases h with hnd | ⟨j, hj, hjk⟩
          · rw [List.map_cons, List.nodup_cons] at hnd
            push_neg at hnd
            by_cases hmem : i.instance_id ∈ rest.map Instance.instance_id
            · obtain ⟨j, hj, hjid⟩ := List.mem_map.mp hmem
              refine Or.inr ⟨j, hj, ?_⟩
              rw [hkeys]
              exact List.mem_append.mpr (Or.inr (List.mem_singleton.mpr hjid))
            · exact Or.inl (hnd hmem)
          · rcases List.mem_cons.mp hj with rfl | hj'
            · exact absurd hjk hm
            · refine Or.inr ⟨j, hj', ?_⟩
              rw [hkeys]
              exact List.mem_append.mpr (Or.inl hjk)
        have hlt := ih _ (stepCounters i p) h'
        have hlen : (dictInsert i.instance_id (mkFacts i) facts).length =
            facts.length + 1 := by
          rw [length_dictInsert, if_neg hm]
        rw [hlen] at hlt
        refine lt_of_lt_of_le hlt ?_
        simp only [List.length_cons]
        omega

/-! ### `get_properties` lemmas -/

theorem propsAfterInstances_nil (g : AutoScalingGroup) (hi : g.instances.isEmpty) :
    propsAfterInstances g = initProps g := by
  unfold propsAfterInstances
  rw [if_pos hi]

theorem propsAfterInstances_ne_nil (g : AutoScalingGroup)
    (hi : ¬ g.instances.isEmpty) :
    propsAfterInstances g =
      { (procInstances g.instances []
          { initProps g with
              instances := some (g.instances.map Instance.instance_id) }).2
        with instance_facts :=
          some (procInstances g.instances []
            { initProps g with
                instances := some (g.instances.map Instance.instance_id) }).1 } := by
  unfold propsAfterInstances
  rw [if_neg hi]

theorem get_properties_eq (g : AutoScalingGroup) :
    get_properties g =
      if g.tags.isEmpty then
        { propsAfterInstances g with load_balancers := g.load_balancers }
      else
        { { propsAfterInstances g with load_balancers := g.load_balancers }
          with tags := some (tagsDict g.tags) } := rfl

theorem propsAfterInstances_counters (g : AutoScalingGroup) :
    ((propsAfterInstances g).healthy_instances +
        (propsAfterInstances g).unhealthy_instances = g.instances.length)
    ∧ ((propsAfterInstances g).viable_instances =
        g.instances.countP fun i =>
          decide (i.health_status = "Healthy" ∧ i.lifecycle_state = "InService"))
    ∧ ((propsAfterInstances g).in_service_instances +
        (propsAfterInstances g).pending_instances +
        (propsAfterInstances g).terminating_instances ≤ g.instances.length)
    ∧ (propsAfterInstances g).load_balancers = g.load_balancers
    ∧ (propsAfterInstances g).tags = none := by
  by_cases hi : g.instances.isEmpty
  · rw [propsAfterInstances_nil g hi, List.isEmpty_iff.mp hi]
    simp [initProps]
  · rw [propsAfterInstances_ne_nil g hi]
    have h1 := procInstances_health_sum g.instances []
      { initProps g with instances := some (g.instances.map Instance.instance_id) }
    have h2 := procInstances_viable g.instances []
      { initProps g with instances := some (g.instances.map Instance.instance_id) }
    have h3 := procInstances_lifecycle_le g.instances []
      { initProps g with instances := some (g.instances.map Instance.instance_id) }
    have h4 := procInstances_fields g.instances []
      { initProps g with instances := some (g.instances.map Instance.instance_id) }
    simp only [initProps] at h1 h2 h3 h4 ⊢
    refine ⟨by omega, by omega, by omega, h4.1, h4.2.2⟩

theorem procInstances_counts (l : List Instance) :
    ∀ (facts : List (String × InstanceFacts)) (p : Properties),
      ((procInstances l facts p).2.healthy_instances =
          p.healthy_instances +
            l.countP fun i => decide (i.health_status = "Healthy"))
      ∧ ((procInstances l facts p).2.unhealthy_instances =
          p.unhealthy_instances +
            l.countP fun i => decide (¬ i.health_status = "Healthy"))
      ∧ ((procInstances l facts p).2.in_service_instances =
          p.in_service_instances +
            l.countP fun i => decide (i.lifecycle_state = "InService"))
      ∧ ((procInstances l facts p).2.pending_instances =
          p.pending_instances +
            l.countP fun i => decide (i.lifecycle_state = "Pending"))
      ∧ ((procInstances l facts p).2.terminating_instances =
          p.terminating_instances +
            l.countP fun i => decide (i.lifecycle_state = "Terminating")) := by
  induction l with
  | nil => intro facts p; simp [procInstances_nil]
  | cons i rest ih =>
      intro facts p
      rw [procInstances_cons]
      have hs := stepCounters_spec i p
      obtain ⟨h1, h2, h3, h4, h5⟩ :=
        ih (dictInsert i.instance_id (mkFacts i) facts) (stepCounters i p)
      rw [h1, h2, h3, h4, h5, hs.1, hs.2.1, hs.2.2.1, hs.2.2.2.1, hs.2.2.2.2.1]
      refine ⟨?_, ?_, ?_, ?_, ?_⟩
      · rw [List.countP_cons]
        by_cases hc : i.health_status = "Healthy" <;> simp [hc] <;> omega
      · rw [List.countP_cons]
        by_cases hc : i.health_status = "Healthy" <;> simp [hc] <;> omega
      · rw [List.countP_cons]
        by_cases hc : i.lifecycle_state = "InService" <;> simp [hc] <;> omega
      · rw [List.countP_cons]
        by_cases hc : i.lifecycle_state = "Pending" <;> simp [hc] <;> omega
      · rw [List.countP_cons]
        by_cases hc : i.lifecycle_state = "Terminating" <;> simp [hc] <;> omega

theorem propsAfterInstances_counts (g : AutoScalingGroup) :
    ((propsAfterInstances g).healthy_instances =
        g.instances.countP fun i => decide (i.health_status = "Healthy"))
    ∧ ((propsAfterInstances g).unhealthy_instances =
        g.instances.countP fun i => decide (¬ i.health_status = "Healthy"))
    ∧ ((propsAfterInstances g).in_service_instances =
        g.instances.countP fun i => decide (i.lifecycle_state = "InService"))
    ∧ ((propsAfterInstances g).pending_instances =
        g.instances.countP fun i => decide (i.lifecycle_state = "Pending"))
    ∧ ((propsAfterInstances g).terminating_instances =
        g.instances.countP fun i => decide (i.lifecycle_state = "Terminating")) := by
  by_cases hi : g.instances.isEmpty
  · rw [propsAfterInstances_nil g hi, List.isEmpty_iff.mp hi]
    simp [initProps]
  · rw [propsAfterInstances_ne_nil g hi]
    obtain ⟨h1, h2, h3, h4, h5⟩ := procInstances_counts g.instances []
      { initProps g with instances := some (g.instances.map Instance.instance_id) }
    simp only [initProps] at h1 h2 h3 h4 h5 ⊢
    exact ⟨by omega, by omega, by omega, by omega, by omega⟩

/-! ### Matcher lemmas -/

theorem dictGet_isSome_of_mem {d : List (String × α)} {p : String × α}
    (hp : p ∈ d) : ∃ v, dictGet p.1 d = some v ∧ (p.1, v) ∈ d := by
  induction d with
  | nil => simp at hp
  | cons q rest ih =>
      by_cases hq : q.1 = p.1
      · refine ⟨q.2, by rw [dictGet_cons, if_pos hq], ?_⟩
        rw [← hq]
        exact List.mem_cons_self q rest
      · rcases List.mem_cons.mp hp with h | h
        · exact absurd (congrArg Prod.fst h).symm hq
        · obtain ⟨v, hv1, hv2⟩ := ih h
          exact ⟨v, by rw [dictGet_cons, if_neg hq]; exact hv1,
            List.mem_cons_of_mem _ hv2⟩

theorem groupMatches_iff (g : AutoScalingGroup) (f : List (String × String)) :
    groupMatches f g = true ↔
      ∀ kv ∈ f, dictGet kv.1 (tagsDict g.tags) = some kv.2 := by
  unfold groupMatches dictEq
  rw [Bool.and_eq_true, List.all_eq_true, List.all_eq_true]
  constructor
  · rintro ⟨h1, h2⟩ kv hkv
    have hg := h2 kv hkv
    rw [beq_iff_eq] at hg
    have hmem := mem_of_dictGet_eq_some hg
    rw [List.mem_filter] at hmem
    have := dictGet_eq_some_of_mem (nodup_dictKeys_tagsDict g.tags) hmem.1
    simpa using this
  · intro h
    have hnd : (dictKeys ((tagsDict g.tags).filter
        fun p => decide (p ∈ f))).Nodup :=
      (nodup_dictKeys_tagsDict g.tags).sublist
        ((List.filter_sublist _).map Prod.fst)
    constructor
    · intro p hp
      rw [beq_iff_eq]
      rw [List.mem_filter, decide_eq_true_iff] at hp
      obtain ⟨v, hv1, hv2⟩ := dictGet_isSome_of_mem hp.2
      have hvd := h (p.1, v) hv2
      have hpd := h p hp.2
      rw [hvd] at hpd
      rw [hv1]
      exact congrArg some (Option.some.inj hpd)
    · intro p hp
      rw [beq_iff_eq]
      have hd := h p hp
      have hmem : (p.1, p.2) ∈ tagsDict g.tags := mem_of_dictGet_eq_some hd
      have hmemf : (p.1, p.2) ∈ (tagsDict g.tags).filter
          fun q => decide (q ∈ f) := by
        rw [List.mem_filter, decide_eq_true_iff]
        exact ⟨hmem, hp⟩
      have := dictGet_eq_some_of_mem hnd hmemf
      simpa using this

theorem groupMatches_nil (g : AutoScalingGroup) : groupMatches [] g = true := by
  rw [groupMatches_iff]
  intro kv hkv
  simp at hkv

theorem matchLoop_singleton (f : List (String × String)) (g : AutoScalingGroup) :
    matchLoop f [g] = if groupMatches f g then [get_properties g] else [] := by
  by_cases hm : groupMatches f g = true <;> simp [matchLoop, hm]

theorem matchLoop_eq_filter_map (f : List (String × String)) :
    ∀ gs : List AutoScalingGroup,
      matchLoop f gs = (gs.filter (groupMatches f)).map get_properties := by
  intro gs
  induction gs with
  | nil => rfl
  | cons g rest ih =>
      by_cases hm : groupMatches f g = true <;>
        simp [matchLoop, List.filter_cons, hm, ih]

theorem get_properties_counters (g : AutoScalingGroup) :
    (get_properties g).healthy_instances = (propsAfterInstances g).healthy_instances
    ∧ (get_properties g).unhealthy_instances =
        (propsAfterInstances g).unhealthy_instances
    ∧ (get_properties g).in_service_instances =
        (propsAfterInstances g).in_service_instances
    ∧ (get_properties g).pending_instances = (propsAfterInstances g).pending_instances
    ∧ (get_properties g).terminating_instances =
        (propsAfterInstances g).terminating_instances
    ∧ (get_properties g).viable_instances = (propsAfterInstances g).viable_instances
    ∧ (get_properties g).instances = (propsAfterInstances g).instances
    ∧ (get_properties g).instance_facts = (propsAfterInstances g).instance_facts := by
  rw [get_properties_eq]
  by_cases ht : g.tags.isEmpty
  · rw [if_pos ht]
    exact ⟨rfl, rfl, rfl, rfl, rfl, rfl, rfl, rfl⟩
  · rw [if_neg ht]
    exact ⟨rfl, rfl, rfl, rfl, rfl, rfl, rfl, rfl⟩

/-! ### Claims -/

/-- C1: `match` includes a group in its result iff every (key, value) pair of
the filter is present verbatim in that group's tag map; extra tags on the
group never disqualify the match. -/
theorem C1_subset_law (g : AutoScalingGroup) (f : List (String × String)) :
    («match» [g] f).as_groups = [get_properties g] ↔
      ∀ kv ∈ f, dictGet kv.1 (tagsDict g.tags) = some kv.2 := by
  rw [show («match» [g] f).as_groups = matchLoop f [g] from rfl,
    matchLoop_singleton, ← groupMatches_iff g f]
  by_cases hm : groupMatches f g = true
  · simp [hm]
  · simp [hm]

/-- C2: for every group, `healthy_instances + unhealthy_instances` equals the
group's total instance count: each instance increments exactly one of the two
health counters. -/
theorem C2_health_partition (g : AutoScalingGroup) :
    (get_properties g).healthy_instances + (get_properties g).unhealthy_instances =
      g.instances.length := by
  have h := get_properties_counters g
  rw [h.1, h.2.1]
  exact (propsAfterInstances_counters g).1

/-- C3: `viable_instances` equals the number of instances that are both
Healthy and InService. -/
theorem C3_viable_conjunction (g : AutoScalingGroup) :
    (get_properties g).viable_instances =
      g.instances.countP fun i =>
        decide (i.health_status = "Healthy" ∧ i.lifecycle_state = "InService") := by
  rw [(get_properties_counters g).2.2.2.2.2.1]
  exact (propsAfterInstances_counters g).2.1

/-- C4: `match` returns a record whose single field `as_groups` holds one
`get_properties` report per matching group, in input order: it equals the
filter of the groups mapped through `get_properties`, and is a subsequence of
the reports of all groups (stable, never re-sorted). -/
theorem C4_stable_order (gs : List AutoScalingGroup)
    (f : List (String × String)) :
    («match» gs f).as_groups = (gs.filter (groupMatches f)).map get_properties
    ∧ («match» gs f).as_groups.Sublist (gs.map get_properties) := by
  have he : («match» gs f).as_groups =
      (gs.filter (groupMatches f)).map get_properties :=
    matchLoop_eq_filter_map f gs
  refine ⟨he, ?_⟩
  rw [he]
  exact (List.filter_sublist gs).map get_properties

/-- C5: with an empty tag filter, `match` returns a report for every group,
in unmodified input order. -/
theorem C5_empty_filter (gs : List AutoScalingGroup) :
    («match» gs []).as_groups = gs.map get_properties := by
  show matchLoop [] gs = _
  induction gs with
  | nil => rfl
  | cons g rest ih =>
      rw [show matchLoop [] (g :: rest) =
          if groupMatches [] g then get_properties g :: matchLoop [] rest
          else matchLoop [] rest from rfl,
        if_pos (groupMatches_nil g), ih, List.map_cons]

/-- C6: a group with zero instances yields a report with no `instances` and
no `instance_facts` field, and all six counters equal to 0. -/
theorem C6_no_instance_omission (g : AutoScalingGroup)
    (h : g.instances = []) :
    (get_properties g).instances = none
    ∧ (get_properties g).instance_facts = none
    ∧ (get_properties g).healthy_instances = 0
    ∧ (get_properties g).unhealthy_instances = 0
    ∧ (get_properties g).in_service_instances = 0
    ∧ (get_properties g).pending_instances = 0
    ∧ (get_properties g).terminating_instances = 0
    ∧ (get_properties g).viable_instances = 0 := by
  have hp : propsAfterInstances g = initProps g :=
    propsAfterInstances_nil g (by simp [h])
  have hc := get_properties_counters g
  rw [hc.1, hc.2.1, hc.2.2.1, hc.2.2.2.1, hc.2.2.2.2.1, hc.2.2.2.2.2.1,
    hc.2.2.2.2.2.2.1, hc.2.2.2.2.2.2.2, hp]
  exact ⟨rfl, rfl, rfl, rfl, rfl, rfl, rfl, rfl⟩

/-- C6 witness: the conditional theorem instantiated at a concrete group with
zero instances. -/
theorem C6_no_instance_omission_witness :
    gEmpty.instances = []
    ∧ ((get_properties gEmpty).instances = none
      ∧ (get_properties gEmpty).instance_facts = none
      ∧ (get_properties gEmpty).healthy_instances = 0
      ∧ (get_properties gEmpty).unhealthy_instances = 0
      ∧ (get_properties gEmpty).in_service_instances = 0
      ∧ (get_properties gEmpty).pending_instances = 0
      ∧ (get_properties gEmpty).terminating_instances = 0
      ∧ (get_properties gEmpty).viable_instances = 0) :=
  ⟨rfl, C6_no_instance_omission gEmpty rfl⟩

/-- C7: the three lifecycle counters sum to at most the group's total
instance count, since a single lifecycle state increments at most one. -/
theorem C7_lifecycle_bound (g : AutoScalingGroup) :
    (get_properties g).in_service_instances + (get_properties g).pending_instances +
      (get_properties g).terminating_instances ≤ g.instances.length := by
  have h := get_properties_counters g
  rw [h.2.2.1, h.2.2.2.1, h.2.2.2.2.1]
  exact (propsAfterInstances_counters g).2.2.1

/-- C8: the report has a `tags` field iff the group has at least one tag; a
group with no tags yields a report with no `tags` field, never an empty
map. -/
theorem C8_tags_presence (g : AutoScalingGroup) :
    ((get_properties g).tags =
        if g.tags.isEmpty then none else some (tagsDict g.tags))
    ∧ (((get_properties g).tags).isSome ↔ g.tags ≠ [])
    ∧ (get_properties g).tags ≠ some [] := by
  have ht0 := (propsAfterInstances_counters g).2.2.2.2
  have heq : (get_properties g).tags =
      if g.tags.isEmpty then none else some (tagsDict g.tags) := by
    rw [get_properties_eq]
    by_cases ht : g.tags.isEmpty
    · rw [if_pos ht, if_pos ht]
      exact ht0
    · rw [if_neg ht, if_neg ht]
  refine ⟨heq, ?_, ?_⟩
  · rw [heq]
    by_cases ht : g.tags.isEmpty
    · rw [if_pos ht]
      simp [List.isEmpty_iff.mp ht]
    · rw [if_neg ht]
      simp only [Option.isSome_some, true_iff]
      intro hc
      exact ht (by simp [hc])
  · rw [heq]
    by_cases ht : g.tags.isEmpty
    · rw [if_pos ht]
      simp
    · rw [if_neg ht]
      simp only [ne_eq, Option.some.injEq]
      exact tagsDict_ne_nil fun hc => ht (by simp [hc])

/-- C9: the final `load_balancers` overwrite re-assigns the value already
copied from the group's attributes: it leaves the report unchanged, and the
report's `load_balancers` always equals the group's. -/
theorem C9_load_balancers_noop (g : AutoScalingGroup) :
    { propsAfterInstances g with load_balancers := g.load_balancers } =
        propsAfterInstances g
    ∧ (get_properties g).load_balancers = g.load_balancers := by
  have hlb := (propsAfterInstances_counters g).2.2.2.1
  constructor
  · rw [← hlb]
  · rw [get_properties_eq]
    by_cases ht : g.tags.isEmpty
    · rw [if_pos ht]
    · rw [if_neg ht]

/-- C10: when two instances share an instance id, the `instances` list keeps
both occurrences and all six counters count both instances (each counter
equals its count over the full instance sequence, duplicates included), but
`instance_facts` holds a single entry per id, carrying the facts of the last
such instance, so it has fewer entries than the instance list. -/
theorem C10_duplicate_ids (g : AutoScalingGroup)
    (hdup : ¬ (g.instances.map Instance.instance_id).Nodup) :
    (get_properties g).instances = some (g.instances.map Instance.instance_id)
    ∧ ((get_properties g).healthy_instances =
        g.instances.countP fun i => decide (i.health_status = "Healthy"))
    ∧ ((get_properties g).unhealthy_instances =
        g.instances.countP fun i => decide (¬ i.health_status = "Healthy"))
    ∧ ((get_properties g).in_service_instances =
        g.instances.countP fun i => decide (i.lifecycle_state = "InService"))
    ∧ ((get_properties g).pending_instances =
        g.instances.countP fun i => decide (i.lifecycle_state = "Pending"))
    ∧ ((get_properties g).terminating_instances =
        g.instances.countP fun i => decide (i.lifecycle_state = "Terminating"))
    ∧ ((get_properties g).viable_instances =
        g.instances.countP fun i =>
          decide (i.health_status = "Healthy" ∧ i.lifecycle_state = "InService"))
    ∧ ∃ facts, (get_properties g).instance_facts = some facts
        ∧ (dictKeys facts).Nodup
        ∧ (∀ id, dictGet id facts = (lastWithId id g.instances).map mkFacts)
        ∧ facts.length < g.instances.length := by
  have hne : ¬ g.instances.isEmpty := by
    intro hi
    rw [List.isEmpty_iff.mp hi] at hdup
    simp at hdup
  have hgc := get_properties_counters g
  have hpa := propsAfterInstances_ne_nil g hne
  have hcnt := propsAfterInstances_counts g
  refine ⟨?_, ?_, ?_, ?_, ?_, ?_, ?_, ?_⟩
  · rw [hgc.2.2.2.2.2.2.1, hpa]
    have hf := (procInstances_fields g.instances []
      { initProps g with
          instances := some (g.instances.map Instance.instance_id) }).2.1
    simpa using hf
  · rw [hgc.1]
    exact hcnt.1
  · rw [hgc.2.1]
    exact hcnt.2.1
  · rw [hgc.2.2.1]
    exact hcnt.2.2.1
  · rw [hgc.2.2.2.1]
    exact hcnt.2.2.2.1
  · rw [hgc.2.2.2.2.1]
    exact hcnt.2.2.2.2
  · rw [hgc.2.2.2.2.2.1]
    exact (propsAfterInstances_counters g).2.1
  · refine ⟨(procInstances g.instances []
        { initProps g with
            instances := some (g.instances.map Instance.instance_id) }).1,
      ?_, ?_, ?_, ?_⟩
    · rw [hgc.2.2.2.2.2.2.2, hpa]
    · exact nodup_dictKeys_procInstances g.instances _ _
        (by rw [dictKeys_nil]; exact List.nodup_nil)
    · intro id
      rw [dictGet_procInstances_facts g.instances id]
      cases hli : lastWithId id g.instances <;> simp [hli, dictGet_nil]
    · have hlt := length_procInstances_facts_lt g.instances []
        { initProps g with
            instances := some (g.instances.map Instance.instance_id) }
        (Or.inl hdup)
      simpa using hlt

/-- C10 witness: the conditional theorem instantiated at a concrete group
whose two instances share the id `i-1`. -/
theorem C10_duplicate_ids_witness :
    (¬ (gDup.instances.map Instance.instance_id).Nodup)
    ∧ ((get_properties gDup).instances =
          some (gDup.instances.map Instance.instance_id)
      ∧ ((get_properties gDup).healthy_instances =
          gDup.instances.countP fun i => decide (i.health_status = "Healthy"))
      ∧ ((get_properties gDup).unhealthy_instances =
          gDup.instances.countP fun i => decide (¬ i.health_status = "Healthy"))
      ∧ ((get_properties gDup).in_service_instances =
          gDup.instances.countP fun i => decide (i.lifecycle_state = "InService"))
      ∧ ((get_properties gDup).pending_instances =
          gDup.instances.countP fun i => decide (i.lifecycle_state = "Pending"))
      ∧ ((get_properties gDup).terminating_instances =
          gDup.instances.countP fun i => decide (i.lifecycle_state = "Terminating"))
      ∧ ((get_properties gDup).viable_instances =
          gDup.instances.countP fun i =>
            decide (i.health_status = "Healthy" ∧ i.lifecycle_state = "InService"))
      ∧ ∃ facts, (get_properties gDup).instance_facts = some facts
          ∧ (dictKeys facts).Nodup
          ∧ (∀ id, dictGet id facts = (lastWithId id gDup.instances).map mkFacts)
          ∧ facts.length < gDup.instances.length) :=
  ⟨by decide, C10_duplicate_ids gDup (by decide)⟩

end Ec2FindAsg
